import Mathlib

/-!
Shallow embedding of the rum-v8 Universal Machine implementation.

The embedding covers the bit-field library (`bitpack/src/bitpack.rs`) and the
VM execution engine (`rum/src/rum.rs`, `rum/src/instructs.rs`).  Machine
integers are modelled as `Nat` with explicit `% 2 ^ 32` / `% 2 ^ 64` where the
Rust code can wrap; Rust operations that panic (out-of-bounds indexing,
division by zero, overflowing shift amounts, unknown opcodes) are modelled
with `Option` / a `trap` outcome.
-/

namespace RumV8

/-! ## Bit-field library (`bitpack.rs`)

Rust `u64` shifts `<<` and `>>` are undefined for shift amounts `≥ 64`: in a
debug build they panic with an overflow error (release builds mask the shift
amount).  The checked (debug) semantics is modelled: `none` is the panic.
A left shift with an in-range amount silently discards the bits shifted out
of the 64-bit word, hence the `% 2 ^ 64`.
-/

/-- Model of the source's `shl` helper (Rust `word << shift` on `u64`). -/
def shl (word shift : Nat) : Option Nat :=
  if shift < 64 then some ((word <<< shift) % 2 ^ 64) else none

/-- Model of the source's `shr` helper (Rust `word >> shift` on `u64`). -/
def shr (word shift : Nat) : Option Nat :=
  if shift < 64 then some (word >>> shift) else none

/-- Rust `u64` subtraction `a - b`: underflow panics (modelled as `none`). -/
def subU64 (a b : Nat) : Option Nat :=
  if b ≤ a then some (a - b) else none

/-- `fitsu(n, width)` from `bitpack.rs`:
`n == (n << (64 - width)) >> (64 - width)`. -/
def fitsu (n width : Nat) : Option Bool := do
  let s ← subU64 64 width
  let a ← shl n s
  let b ← shr a s
  pure (n == b)

/-- `getu(word, width, lsb)` from `bitpack.rs`:
`(word << (64 - width - lsb)) >> (64 - width)`. -/
def getu (word width lsb : Nat) : Option Nat := do
  let s0 ← subU64 64 width
  let s1 ← subU64 s0 lsb
  let a ← shl word s1
  let s2 ← subU64 64 width
  shr a s2

/-- `newu(word, width, lsb, value)` from `bitpack.rs`.

The outer `Option` is a Rust panic (`none` = panic); the inner `Option` is
the function's own return type (`none` = the value does not fit).
`word_width` is `word.count_zeros() + word.count_ones()`, which is always 64
for a `u64`. -/
def newu (word width lsb value : Nat) : Option (Option Nat) :=
  let word_width := 64
  if width > word_width ∨ width + lsb > word_width then
    none
  else
    match fitsu value width with
    | none => none
    | some false => some none
    | some true =>
      match shr word (lsb + width) with
      | none => none
      | some t1 =>
        match shl t1 (lsb + width) with
        | none => none
        | some left =>
          match shl word (word_width - lsb) with
          | none => none
          | some t2 =>
            match shr t2 (word_width - lsb) with
            | none => none
            | some right =>
              match shl value lsb with
              | none => none
              | some val => some (some (left ||| right ||| val))

/-! ## VM state (`rum.rs`)

`unmapped_segs` is a Rust `Vec` used as a stack via `push`/`pop`, which act
on the *back* of the `Vec`; the list here stores the stack top-first, so a
push is `::` and a pop takes the head. -/

/-- The `Vm` struct from `rum.rs`.  Registers hold `u32` values, memory is
the segment table `Vec<Vec<u32>>`. -/
structure Vm where
  registers : List Nat
  memory : List (List Nat)
  unmapped_segs : List Nat
  max_mapped_seg : Nat
  prog_count : Nat
deriving DecidableEq, Repr

/-! ## Instruction fields (`instructs.rs`) -/

/-- The `Field` struct from `instructs.rs`. -/
structure Field where
  width : Nat
  lsb : Nat

def RA : Field := ⟨3, 6⟩

def RB : Field := ⟨3, 3⟩

def RC : Field := ⟨3, 0⟩

def RL : Field := ⟨3, 25⟩

def VL : Field := ⟨25, 0⟩

/-- `mask(bits)` from `instructs.rs`: `(1 << bits) - 1`. -/
def mask (bits : Nat) : Nat := (1 <<< bits) - 1

/-- `get(field, instruction)` from `instructs.rs`:
`(instruction >> field.lsb) & mask(field.width)`. -/
def get (f : Field) (instruction : Nat) : Nat :=
  (instruction >>> f.lsb) &&& mask f.width

/-! ## Opcode handlers (`instructs.rs`)

Register and segment reads use `List.getD`; the handlers only ever index
registers with 3-bit selectors, and the theorems that need in-bounds segment
indexing carry the bound as a hypothesis.  Handlers where the Rust code can
panic return `Option Vm` (`none` = panic). -/

/-- `cond_move`: if `R[c] ≠ 0` then `R[a] ← R[b]`. -/
def cond_move (vm : Vm) (word : Nat) : Vm :=
  let a := get RA word
  let b := get RB word
  let c := get RC word
  if vm.registers.getD c 0 = 0 then vm
  else { vm with registers := vm.registers.set a (vm.registers.getD b 0) }

/-- `seg_load`: `R[a] ← memory[R[b]][R[c]]`; out-of-bounds indexing panics. -/
def seg_load (vm : Vm) (word : Nat) : Option Vm :=
  let a := get RA word
  let b := get RB word
  let c := get RC word
  match vm.memory.get? (vm.registers.getD b 0) with
  | none => none
  | some seg =>
    match seg.get? (vm.registers.getD c 0) with
    | none => none
    | some x => some { vm with registers := vm.registers.set a x }

/-- `seg_store`: `memory[R[a]][R[b]] ← R[c]`; out-of-bounds indexing panics. -/
def seg_store (vm : Vm) (word : Nat) : Option Vm :=
  let a := get RA word
  let b := get RB word
  let c := get RC word
  match vm.memory.get? (vm.registers.getD a 0) with
  | none => none
  | some seg =>
    if vm.registers.getD b 0 < seg.length then
      let seg2 := seg.set (vm.registers.getD b 0) (vm.registers.getD c 0)
      some { vm with memory := vm.memory.set (vm.registers.getD a 0) seg2 }
    else none

/-- `add`: `R[a] ← (R[b] + R[c]) mod 2 ^ 32` (the source widens to `u64`,
adds, and reduces `% (1 << 32)`). -/
def add (vm : Vm) (word : Nat) : Vm :=
  let a := get RA word
  let b := get RB word
  let c := get RC word
  let v := (vm.registers.getD b 0 + vm.registers.getD c 0) % 2 ^ 32
  { vm with registers := vm.registers.set a v }

/-- `mul`: `R[a] ← (R[b] * R[c]) mod 2 ^ 32`. -/
def mul (vm : Vm) (word : Nat) : Vm :=
  let a := get RA word
  let b := get RB word
  let c := get RC word
  let v := (vm.registers.getD b 0 * vm.registers.getD c 0) % 2 ^ 32
  { vm with registers := vm.registers.set a v }

/-- `div`: `R[a] ← R[b] / R[c]`; Rust division by zero panics. -/
def div (vm : Vm) (word : Nat) : Option Vm :=
  let a := get RA word
  let b := get RB word
  let c := get RC word
  if vm.registers.getD c 0 = 0 then none
  else
    let v := vm.registers.getD b 0 / vm.registers.getD c 0
    some { vm with registers := vm.registers.set a v }

/-- `nand`: `R[a] ← !(R[b] & R[c])`; 32-bit complement is xor with all
ones. -/
def nand (vm : Vm) (word : Nat) : Vm :=
  let a := get RA word
  let b := get RB word
  let c := get RC word
  let v := (vm.registers.getD b 0 &&& vm.registers.getD c 0) ^^^ (2 ^ 32 - 1)
  { vm with registers := vm.registers.set a v }

/-- `map_seg`: reuse the top of `unmapped_segs` if nonempty (the assignment
`memory[k] = vec![0; R[c]]` panics if `k` is out of bounds of the table),
otherwise increment `max_mapped_seg` and push a fresh zeroed segment.
`segment_number as u32` truncates the `usize` identifier. -/
def map_seg (vm : Vm) (word : Nat) : Option Vm :=
  let b := get RB word
  let c := get RC word
  let seg := List.replicate (vm.registers.getD c 0) 0
  match vm.unmapped_segs with
  | segment_number :: rest =>
    if segment_number < vm.memory.length then
      some { vm with
              memory := vm.memory.set segment_number seg
              unmapped_segs := rest
              registers := vm.registers.set b (segment_number % 2 ^ 32) }
    else none
  | [] =>
    some { vm with
            max_mapped_seg := vm.max_mapped_seg + 1
            memory := vm.memory ++ [seg]
            registers := vm.registers.set b ((vm.max_mapped_seg + 1) % 2 ^ 32) }

/-- `unmap_seg`: `memory[R[c]].clear()` (panics if `R[c]` is out of bounds
of the table) and push `R[c]` onto `unmapped_segs` — with no check against
0, double frees, or liveness. -/
def unmap_seg (vm : Vm) (word : Nat) : Option Vm :=
  let c := get RC word
  let idx := vm.registers.getD c 0
  if idx < vm.memory.length then
    some { vm with
      memory := vm.memory.set idx [],
      unmapped_segs := idx :: vm.unmapped_segs }
  else none

/-- `output`: the bytes the instruction writes to stdout.  The source runs
`print!("{}", R[c] as u8 as char)`: the low byte of `R[c]` becomes the char
with that code point, and `print!` writes the char's UTF-8 encoding — one
byte for code points below 0x80, two bytes (`0xC0 ||| cp >> 6`,
`0x80 ||| cp &&& 0x3F`) for code points 0x80–0xFF. -/
def outputBytes (vm : Vm) (word : Nat) : List Nat :=
  let c := get RC word
  let b := vm.registers.getD c 0 % 256
  if b < 128 then [b] else [192 + b / 64, 128 + b % 64]

/-- Result of `io::stdin().read(&mut buffer)` for the 1-byte buffer of
`input`: `ok count byte` is Rust `Ok(count)` with `buffer[0] = byte`
(`count` is 1 on a successful read and 0 at end-of-file), `err` is
`Err(_)`. -/
inductive ReadResult where
  | ok : Nat → Nat → ReadResult
  | err : ReadResult
deriving DecidableEq, Repr

/-- The value `input` stores: the source matches the read result with
`Ok(byte) => byte as u32` — `byte` there is the *count* returned by `read`,
not the contents of the buffer — and `Err(_) => !0_u32`. -/
def inputValue : ReadResult → Nat
  | .ok count _ => count % 2 ^ 32
  | .err => 2 ^ 32 - 1

/-- `input`: `R[c] ←` the value computed from the read result. -/
def input (vm : Vm) (word : Nat) (r : ReadResult) : Vm :=
  let c := get RC word
  { vm with registers := vm.registers.set c (inputValue r) }

/-- `load_prog`: if `R[b] ≠ 0` then `memory[0] = memory[R[b]].clone()`
(indexing panics if `R[b]` is out of bounds of the table); then
`prog_count ← R[c]`. -/
def load_prog (vm : Vm) (word : Nat) : Option Vm :=
  let b := get RB word
  let c := get RC word
  if vm.registers.getD b 0 ≠ 0 then
    match vm.memory.get? (vm.registers.getD b 0) with
    | none => none
    | some src =>
      some { vm with
        memory := vm.memory.set 0 src,
        prog_count := vm.registers.getD c 0 }
  else
    some { vm with prog_count := vm.registers.getD c 0 }

/-- `load_val`: `R[rl] ← vl`; the 25-bit immediate fits a `u32`, so the
`as u32` cast is lossless. -/
def load_val (vm : Vm) (word : Nat) : Vm :=
  let value := get VL word
  let a := get RL word
  { vm with registers := vm.registers.set a value }

/-! ## Dispatch loop (`rum.rs`) -/

/-- Result of one dispatch: continue with a new state, clean halt
(`std::process::exit(0)`), or a fatal panic. -/
inductive Outcome where
  | next : Vm → Outcome
  | halted : Outcome
  | trap : Outcome
deriving DecidableEq, Repr

/-- Lift a panicking handler into an `Outcome`. -/
def lift (o : Option Vm) : Outcome :=
  match o with
  | some vm => Outcome.next vm
  | none => Outcome.trap

/-- The `match opcode` arm dispatch of `Vm::execute`: opcodes 0–13 run
their handlers (`output` leaves the state unchanged), everything else is
`panic!("Error")`. -/
def dispatch (vm : Vm) (word : Nat) (inp : ReadResult) : Nat → Outcome
  | 0 => Outcome.next (cond_move vm word)
  | 1 => lift (seg_load vm word)
  | 2 => lift (seg_store vm word)
  | 3 => Outcome.next (add vm word)
  | 4 => Outcome.next (mul vm word)
  | 5 => lift (div vm word)
  | 6 => Outcome.next (nand vm word)
  | 7 => Outcome.halted
  | 8 => lift (map_seg vm word)
  | 9 => lift (unmap_seg vm word)
  | 10 => Outcome.next vm
  | 11 => Outcome.next (input vm word inp)
  | 12 => lift (load_prog vm word)
  | 13 => Outcome.next (load_val vm word)
  | _ => Outcome.trap

/-- `Vm::execute`: `opcode = (word >> 28) & ((1 << 4) - 1)`, then the
match over the opcode. -/
def execute (vm : Vm) (word : Nat) (inp : ReadResult) : Outcome :=
  dispatch vm word inp ((word >>> 28) &&& ((1 <<< 4) - 1))

/-- `buf.chunks_exact(4).map(u32::from_be_bytes)`: consume 4 bytes at a
time in big-endian order; `chunks_exact` silently drops a trailing chunk of
fewer than 4 bytes. -/
def loadImage : List Nat → List Nat
  | b0 :: b1 :: b2 :: b3 :: rest =>
    (b0 * 2 ^ 24 + b1 * 2 ^ 16 + b2 * 2 ^ 8 + b3) :: loadImage rest
  | _ => []

/-- `Vm::new_vm`: 8 zeroed registers, empty segment table, empty free-list,
watermark 0, program counter 0. -/
def new_vm : Vm :=
  { registers := List.replicate 8 0
    memory := []
    unmapped_segs := []
    max_mapped_seg := 0
    prog_count := 0 }

/-- `Vm::boot` on a fresh `new_vm`, with the byte buffer that the source
reads from the file or stdin taken as a parameter: push the decoded word
sequence as segment 0. -/
def boot (buf : List Nat) : Vm :=
  { new_vm with memory := new_vm.memory ++ [loadImage buf] }

/-- `Vm::get_instruct`: fetch `memory[0][prog_count]` (a panic if segment 0
is missing, empty, or the program counter is past its end), then increment
the `u32` program counter. -/
def get_instruct (vm : Vm) : Option (Nat × Vm) :=
  match (vm.memory.getD 0 []).get? vm.prog_count with
  | some instruction =>
    some (instruction, { vm with prog_count := (vm.prog_count + 1) % 2 ^ 32 })
  | none => none

/-- One iteration of `Vm::run`: fetch, then execute. -/
def step (vm : Vm) (inp : ReadResult) : Outcome :=
  match get_instruct vm with
  | some p => execute p.2 p.1 inp
  | none => Outcome.trap

/-- The states reachable from `boot buf` by executing instructions, with an
arbitrary read result supplied to each step. -/
inductive Reach (buf : List Nat) : Vm → Prop where
  | start : Reach buf (boot buf)
  | move {vm vm2 : Vm} {inp : ReadResult} :
      Reach buf vm → step vm inp = Outcome.next vm2 → Reach buf vm2

/-- The state invariant maintained by the dispatch loop: the register file
has exactly 8 entries, every free-list entry indexes an allocated slot of
the segment table, and the watermark is one less than the table length. -/
def Inv (vm : Vm) : Prop :=
  vm.registers.length = 8 ∧
  (∀ k ∈ vm.unmapped_segs, k < vm.memory.length) ∧
  vm.max_mapped_seg + 1 = vm.memory.length

/-- Frame predicate for the pure register opcodes: segment table, free-list,
watermark and program counter are untouched, and every register other than
the target `t` keeps its value. -/
def FramePreserved (vm vm2 : Vm) (t : Nat) : Prop :=
  vm2.memory = vm.memory ∧
  vm2.unmapped_segs = vm.unmapped_segs ∧
  vm2.max_mapped_seg = vm.max_mapped_seg ∧
  vm2.prog_count = vm.prog_count ∧
  ∀ i, i ≠ t → vm2.registers.getD i 0 = vm.registers.getD i 0

/-! ## Theorems -/

/-- A list whose length is below 4 decodes to no instruction words:
`chunks_exact(4)` yields nothing. -/
theorem loadImage_short : ∀ (l : List Nat), l.length < 4 → loadImage l = []
  | [], _ => rfl
  | [_], _ => rfl
  | [_, _], _ => rfl
  | [_, _, _], _ => rfl
  | _ :: _ :: _ :: _ :: t, h => by
    simp [List.length_cons] at h
    omega

/-- Appending fewer than 4 trailing bytes to a 4-aligned buffer does not
change the decoded image: the trailing chunk is silently dropped. -/
theorem loadImage_append : ∀ (buf extra : List Nat), buf.length % 4 = 0 →
    extra.length < 4 → loadImage (buf ++ extra) = loadImage buf
  | [], extra, _, he => by
    rw [List.nil_append, loadImage_short extra he]
    exact rfl
  | [_], _, hb, _ => by simp at hb
  | [_, _], _, hb, _ => by simp at hb
  | [_, _, _], _, hb, _ => by simp at hb
  | b0 :: b1 :: b2 :: b3 :: rest, extra, hb, he => by
    have hr : rest.length % 4 = 0 := by
      simp [List.length_cons] at hb
      omega
    simp only [List.cons_append, loadImage]
    exact congrArg _ (loadImage_append rest extra hr he)

/-- C1: the claim says a successful read stores the byte's value in `R[c]`
and end-of-file or error stores `0xFFFF_FFFF`.  The code instead stores the
value returned by `Read::read`, which is the *count* of bytes read: a
successful 1-byte read of byte 0x41 stores 1 (not 0x41) and end-of-file
(`Ok(0)`) stores 0 (not all ones). -/
theorem input_stores_read_count :
    (input (Vm.mk (List.replicate 8 0) [[0]] [] 0 0) 0
      (ReadResult.ok 1 65)).registers.getD 0 0 = 1 ∧
    (input (Vm.mk (List.replicate 8 0) [[0]] [] 0 0) 0
      (ReadResult.ok 0 0)).registers.getD 0 0 = 0 ∧
    (1 : Nat) ≠ 65 ∧
    (0 : Nat) ≠ 2 ^ 32 - 1 := by
  refine ⟨rfl, rfl, by decide, by decide⟩

/-- C2: the claim says Output always writes exactly one byte, the low 8
bits of `R[c]`.  For `R[c] = 128` the code prints the char U+0080 via
`print!`, whose UTF-8 encoding is the two bytes `0xC2 0x80`. -/
theorem output_emits_utf8_pair :
    outputBytes (Vm.mk [128, 0, 0, 0, 0, 0, 0, 0] [[0]] [] 0 0) 0 = [194, 128] ∧
    ([194, 128] : List Nat).length ≠ 1 := by
  refine ⟨rfl, by decide⟩

/-- C6: for `width = 1`, `lsb = 0`, `value = 0` (which fits one unsigned
bit) on the all-ones word, `newu` computes `shl(word, 64 - lsb)` — a shift
by 64, which overflows, so the call panics instead of returning `Some` with
a round-tripping result. -/
theorem newu_boundary_shift_traps :
    fitsu 0 1 = some true ∧ newu (2 ^ 64 - 1) 1 0 0 = none := by
  refine ⟨by decide, by decide⟩

/-- C5: a 5-byte input stream (length not a multiple of 4) is not rejected:
`boot` installs the image decoded from the first 4 bytes and drops the
trailing byte, yielding the same state as booting the truncated stream. -/
theorem boot_accepts_ragged_cex :
    [112, 0, 0, 0, 171].length % 4 ≠ 0 ∧
    boot [112, 0, 0, 0, 171] = boot [112, 0, 0, 0] ∧
    (boot [112, 0, 0, 0, 171]).memory = [[1879048192]] := by
  refine ⟨by decide, by decide, by decide⟩

/-- C5 (amended): for a byte stream made of a 4-aligned prefix and fewer
than 4 trailing bytes, the loader silently discards the trailing bytes and
boots exactly as it would on the prefix alone; no error is reported. -/
theorem boot_discards_trailing (buf extra : List Nat) (hb : buf.length % 4 = 0)
    (he : extra.length < 4) : boot (buf ++ extra) = boot buf := by
  unfold boot
  rw [loadImage_append buf extra hb he]

/-- Witness for the amended C5 at a concrete ragged input. -/
theorem boot_discards_trailing_witness :
    boot [112, 0, 0, 0, 171] = boot [112, 0, 0, 0] :=
  boot_discards_trailing [112, 0, 0, 0] [171] (by decide) (by decide)

/-- Updating a register slot preserves the state invariant. -/
theorem inv_set_registers {vm : Vm} (hI : Inv vm) (a x : Nat) :
    Inv { vm with registers := vm.registers.set a x } := by
  obtain ⟨h8, hf, hw⟩ := hI
  exact ⟨by simpa using h8, hf, hw⟩

/-- Replacing one segment in place preserves the state invariant. -/
theorem inv_set_memory {vm : Vm} (hI : Inv vm) (i : Nat) (s : List Nat) :
    Inv { vm with memory := vm.memory.set i s } := by
  obtain ⟨h8, hf, hw⟩ := hI
  refine ⟨h8, ?_, by simpa using hw⟩
  intro k hk
  simpa using hf k hk

theorem inv_cond_move {vm : Vm} (hI : Inv vm) (w : Nat) : Inv (cond_move vm w) := by
  simp only [cond_move]
  split
  · exact hI
  · exact inv_set_registers hI _ _

theorem inv_add {vm : Vm} (hI : Inv vm) (w : Nat) : Inv (add vm w) :=
  inv_set_registers hI _ _

theorem inv_mul {vm : Vm} (hI : Inv vm) (w : Nat) : Inv (mul vm w) :=
  inv_set_registers hI _ _

theorem inv_nand {vm : Vm} (hI : Inv vm) (w : Nat) : Inv (nand vm w) :=
  inv_set_registers hI _ _

theorem inv_load_val {vm : Vm} (hI : Inv vm) (w : Nat) : Inv (load_val vm w) :=
  inv_set_registers hI _ _

theorem inv_input {vm : Vm} (hI : Inv vm) (w : Nat) (r : ReadResult) :
    Inv (input vm w r) :=
  inv_set_registers hI _ _

theorem inv_seg_load {vm vm2 : Vm} {w : Nat} (hI : Inv vm)
    (h : seg_load vm w = some vm2) : Inv vm2 := by
  simp only [seg_load] at h
  split at h
  · simp at h
  · split at h
    · simp at h
    · injection h with h
      subst h
      exact inv_set_registers hI _ _

theorem inv_seg_store {vm vm2 : Vm} {w : Nat} (hI : Inv vm)
    (h : seg_store vm w = some vm2) : Inv vm2 := by
  simp only [seg_store] at h
  split at h
  · simp at h
  · split at h
    · injection h with h
      subst h
      exact inv_set_memory hI _ _
    · simp at h

theorem inv_div {vm vm2 : Vm} {w : Nat} (hI : Inv vm)
    (h : div vm w = some vm2) : Inv vm2 := by
  simp only [div] at h
  split at h
  · simp at h
  · injection h with h
    subst h
    exact inv_set_registers hI _ _

theorem inv_map_seg {vm vm2 : Vm} {w : Nat} (hI : Inv vm)
    (h : map_seg vm w = some vm2) : Inv vm2 := by
  obtain ⟨h8, hf, hw⟩ := hI
  simp only [map_seg] at h
  split at h
  · -- reuse branch: the free-list is `segment_number :: rest`
    split at h
    · injection h with h
      subst h
      refine ⟨by simpa using h8, ?_, by simpa using hw⟩
      intro j hj
      have hmem : j ∈ vm.unmapped_segs := by
        rename_i segn rest heq _
        rw [heq]
        exact List.mem_cons_of_mem _ hj
      simpa using hf j hmem
    · simp at h
  · -- fresh branch: the free-list is empty
    injection h with h
    subst h
    refine ⟨by simpa using h8, ?_, by simp; omega⟩
    intro j hj
    rename_i heq
    rw [heq] at hj
    simp at hj

theorem inv_unmap_seg {vm vm2 : Vm} {w : Nat} (hI : Inv vm)
    (h : unmap_seg vm w = some vm2) : Inv vm2 := by
  obtain ⟨h8, hf, hw⟩ := hI
  simp only [unmap_seg] at h
  split at h
  · injection h with h
    subst h
    refine ⟨h8, ?_, by simpa using hw⟩
    intro j hj
    simp only [List.length_set]
    rcases List.mem_cons.mp hj with h1 | h2
    · subst h1
      rename_i hlt
      exact hlt
    · exact hf j h2
  · simp at h

theorem inv_load_prog {vm vm2 : Vm} {w : Nat} (hI : Inv vm)
    (h : load_prog vm w = some vm2) : Inv vm2 := by
  simp only [load_prog] at h
  split at h
  · split at h
    · simp at h
    · injection h with h
      subst h
      obtain ⟨h8, hf, hw⟩ := hI
      refine ⟨h8, ?_, by simpa using hw⟩
      intro j hj
      simpa using hf j hj
  · injection h with h
    subst h
    exact hI

/-- A lifted handler that continues must have returned `some`. -/
theorem lift_next {o : Option Vm} {vm2 : Vm} (h : lift o = Outcome.next vm2) :
    o = some vm2 := by
  cases o with
  | none => exact absurd h (by simp [lift])
  | some a => simpa [lift] using h

/-- Each arm of the opcode dispatch preserves the state invariant. -/
theorem inv_dispatch {vm vm2 : Vm} {w : Nat} {inp : ReadResult} (hI : Inv vm) :
    ∀ oc, dispatch vm w inp oc = Outcome.next vm2 → Inv vm2
  | 0, h => by injection h with h; subst h; exact inv_cond_move hI w
  | 1, h => inv_seg_load hI (lift_next h)
  | 2, h => inv_seg_store hI (lift_next h)
  | 3, h => by injection h with h; subst h; exact inv_add hI w
  | 4, h => by injection h with h; subst h; exact inv_mul hI w
  | 5, h => inv_div hI (lift_next h)
  | 6, h => by injection h with h; subst h; exact inv_nand hI w
  | 7, h => Outcome.noConfusion h
  | 8, h => inv_map_seg hI (lift_next h)
  | 9, h => inv_unmap_seg hI (lift_next h)
  | 10, h => by injection h with h; subst h; exact hI
  | 11, h => by injection h with h; subst h; exact inv_input hI w inp
  | 12, h => inv_load_prog hI (lift_next h)
  | 13, h => by injection h with h; subst h; exact inv_load_val hI w
  | _ + 14, h => Outcome.noConfusion h

/-- One dispatch of `execute` preserves the state invariant. -/
theorem inv_execute {vm vm2 : Vm} {w : Nat} {inp : ReadResult} (hI : Inv vm)
    (h : execute vm w inp = Outcome.next vm2) : Inv vm2 :=
  inv_dispatch hI ((w >>> 28) &&& ((1 <<< 4) - 1)) h

/-- A successful fetch only advances the program counter. -/
theorem inv_get_instruct {vm : Vm} {p : Nat × Vm} (hI : Inv vm)
    (h : get_instruct vm = some p) : Inv p.2 := by
  simp only [get_instruct] at h
  split at h
  · injection h with h
    subst h
    exact hI
  · simp at h

/-- One step of the run loop preserves the state invariant. -/
theorem inv_step {vm vm2 : Vm} {inp : ReadResult}
    (h : step vm inp = Outcome.next vm2) (hI : Inv vm) : Inv vm2 := by
  simp only [step] at h
  split at h
  · rename_i p hp
    exact inv_execute (inv_get_instruct hI hp) h
  · simp at h

/-- Every state reachable from boot satisfies the state invariant. -/
theorem reach_invariant {buf : List Nat} {vm : Vm} (h : Reach buf vm) : Inv vm := by
  induction h with
  | start =>
    refine ⟨by simp [boot, new_vm], ?_, by simp [boot, new_vm]⟩
    intro k hk
    simp [boot, new_vm] at hk
  | move hr hstep ih => exact inv_step hstep ih

/-- C3 (counterexample): booting the one-word program `0x9000_0000`
(Unmap with `rc = 0`) and executing one instruction reaches a state whose
free-list contains identifier 0, because `unmap_seg` pushes `R[c]` with no
check. -/
theorem freelist_contains_zero_cex :
    Reach [144, 0, 0, 0] (Vm.mk (List.replicate 8 0) [[]] [0] 0 1) ∧
    0 ∈ (Vm.mk (List.replicate 8 0) [[]] [0] 0 1).unmapped_segs :=
  ⟨@Reach.move [144, 0, 0, 0] (boot [144, 0, 0, 0])
      (Vm.mk (List.replicate 8 0) [[]] [0] 0 1) ReadResult.err
      Reach.start (by decide),
   by decide⟩

/-- C3 (amended): `unmap_seg` pushes `R[c]` unconditionally, so the
free-list can come to contain 0, duplicates, and live identifiers.  What
every reachable state does guarantee is that each free-list entry is a
valid slot index of the segment table. -/
theorem freelist_entries_index_table (buf : List Nat) (vm : Vm)
    (h : Reach buf vm) : ∀ k ∈ vm.unmapped_segs, k < vm.memory.length :=
  (reach_invariant h).2.1

/-- Witness for the amended C3 at a concrete reachable state (map one
segment, then unmap it). -/
theorem freelist_entries_index_table_witness :
    1 < (Vm.mk [0, 1, 0, 0, 0, 0, 0, 0] [[2147483656, 2415919105], []] [1] 1 2).memory.length :=
  freelist_entries_index_table [128, 0, 0, 8, 144, 0, 0, 1]
    (Vm.mk [0, 1, 0, 0, 0, 0, 0, 0] [[2147483656, 2415919105], []] [1] 1 2)
    (@Reach.move [128, 0, 0, 8, 144, 0, 0, 1]
      (Vm.mk [0, 1, 0, 0, 0, 0, 0, 0] [[2147483656, 2415919105], []] [] 1 1)
      (Vm.mk [0, 1, 0, 0, 0, 0, 0, 0] [[2147483656, 2415919105], []] [1] 1 2)
      ReadResult.err
      (@Reach.move [128, 0, 0, 8, 144, 0, 0, 1]
        (boot [128, 0, 0, 8, 144, 0, 0, 1])
        (Vm.mk [0, 1, 0, 0, 0, 0, 0, 0] [[2147483656, 2415919105], []] [] 1 1)
        ReadResult.err Reach.start (by decide))
      (by decide))
    1 (by decide)

/-- C4 (counterexample): executing Unmap with `R[c] = 0` from boot of the
program `0x9000_0000` is not a trap: the step continues, segment 0 has
been emptied, and identifier 0 sits on the free-list. -/
theorem unmap_zero_no_trap_cex :
    step (boot [144, 0, 0, 0]) ReadResult.err =
      Outcome.next (Vm.mk (List.replicate 8 0) [[]] [0] 0 1) ∧
    (Vm.mk (List.replicate 8 0) [[]] [0] 0 1).memory.getD 0 [] = [] ∧
    0 ∈ (Vm.mk (List.replicate 8 0) [[]] [0] 0 1).unmapped_segs := by
  refine ⟨by decide, by decide, by decide⟩

/-- C4 (amended): Unmap with `R[c] = 0` succeeds at the unmap instruction
itself, clearing segment 0 and pushing 0 onto the free-list; the VM then
traps at the very next instruction fetch, because segment 0 is now empty —
so the nonzero-status termination happens one step later, after segment 0
has already been freed. -/
theorem unmap_zero_frees_then_fetch_traps (vm : Vm) (w : Nat)
    (hc : vm.registers.getD (get RC w) 0 = 0) (hm : 0 < vm.memory.length) :
    unmap_seg vm w =
      some { vm with memory := vm.memory.set 0 [], unmapped_segs := 0 :: vm.unmapped_segs } ∧
    ({ vm with memory := vm.memory.set 0 [], unmapped_segs := 0 :: vm.unmapped_segs } : Vm).memory.getD 0 [] = [] ∧
    ∀ inp, step { vm with memory := vm.memory.set 0 [], unmapped_segs := 0 :: vm.unmapped_segs } inp = Outcome.trap := by
  refine ⟨?_, ?_, ?_⟩
  · simp only [unmap_seg, hc]
    rw [if_pos hm]
  · simp [List.getD_eq_getElem?_getD, List.getElem?_set_self hm]
  · intro inp
    simp [step, get_instruct, List.getD_eq_getElem?_getD, List.getElem?_set_self hm]

/-- Witness for the amended C4 at a concrete state. -/
theorem unmap_zero_frees_then_fetch_traps_witness :
    step (Vm.mk (List.replicate 8 0) [[]] [0] 0 0) ReadResult.err = Outcome.trap :=
  (unmap_zero_frees_then_fetch_traps (Vm.mk (List.replicate 8 0) [[5]] [] 0 0)
    2415919104 (by decide) (by decide)).2.2 ReadResult.err

/-- C9: every decoded register selector is masked to 3 bits and is
therefore below 8, and the register file of every reachable state has
exactly 8 entries, so register indexing is always in bounds. -/
theorem registers_file_inbounds :
    (∀ w : Nat, get RA w < 8 ∧ get RB w < 8 ∧ get RC w < 8 ∧ get RL w < 8) ∧
    (∀ (buf : List Nat) (vm : Vm), Reach buf vm → vm.registers.length = 8) := by
  constructor
  · intro w
    refine ⟨?_, ?_, ?_, ?_⟩ <;>
      exact Nat.lt_of_le_of_lt Nat.and_le_right (by decide)
  · intro buf vm h
    exact (reach_invariant h).1

/-- Witness for C9 at a concrete instruction word and the boot state. -/
theorem registers_file_inbounds_witness :
    get RA 4294967295 < 8 ∧ (boot [144, 0, 0, 0]).registers.length = 8 :=
  ⟨(registers_file_inbounds.1 4294967295).1,
   registers_file_inbounds.2 [144, 0, 0, 0] (boot [144, 0, 0, 0]) Reach.start⟩

/-- C7: Map Segment allocates a zeroed segment of length `R[c]` and stores
its identifier in `R[b]`: the free-list top when the free-list is nonempty
(LIFO pop), the incremented watermark otherwise.  The hypotheses are the
segment-table invariants of reachable states (`reach_invariant`): free-list
entries index the table, and the watermark is one less than the table
length, so the minted identifier names the appended slot. -/
theorem map_seg_allocates (vm : Vm) (w : Nat)
    (hfree : ∀ k ∈ vm.unmapped_segs, k < vm.memory.length)
    (hw : vm.max_mapped_seg + 1 = vm.memory.length) :
    (vm.unmapped_segs = [] →
      map_seg vm w = some { vm with max_mapped_seg := vm.max_mapped_seg + 1, memory := vm.memory ++ [List.replicate (vm.registers.getD (get RC w) 0) 0], registers := vm.registers.set (get RB w) ((vm.max_mapped_seg + 1) % 2 ^ 32) } ∧
      (vm.memory ++ [List.replicate (vm.registers.getD (get RC w) 0) 0]).getD (vm.max_mapped_seg + 1) [] = List.replicate (vm.registers.getD (get RC w) 0) 0) ∧
    (∀ k rest, vm.unmapped_segs = k :: rest →
      map_seg vm w = some { vm with memory := vm.memory.set k (List.replicate (vm.registers.getD (get RC w) 0) 0), unmapped_segs := rest, registers := vm.registers.set (get RB w) (k % 2 ^ 32) } ∧
      (vm.memory.set k (List.replicate (vm.registers.getD (get RC w) 0) 0)).getD k [] = List.replicate (vm.registers.getD (get RC w) 0) 0) := by
  constructor
  · intro hnil
    constructor
    · simp [map_seg, hnil]
    · rw [hw, List.getD_eq_getElem?_getD, List.getElem?_concat_length]
      rfl
  · intro k rest hcons
    have hk : k < vm.memory.length :=
      hfree k (by rw [hcons]; exact List.mem_cons_self k rest)
    constructor
    · simp [map_seg, hcons, hk]
    · rw [List.getD_eq_getElem?_getD, List.getElem?_set_self hk]
      rfl

/-- Witness for C7: a fresh allocation of 4 zeroed words from a state with
an empty free-list. -/
theorem map_seg_allocates_witness :
    map_seg (Vm.mk [0, 0, 4, 0, 0, 0, 0, 0] [[1, 2, 3]] [] 0 0) 2147483658 =
      some (Vm.mk [0, 1, 4, 0, 0, 0, 0, 0] [[1, 2, 3], [0, 0, 0, 0]] [] 1 0) ∧
    ([[1, 2, 3], [0, 0, 0, 0]] : List (List Nat)).getD 1 [] = List.replicate 4 0 :=
  (map_seg_allocates (Vm.mk [0, 0, 4, 0, 0, 0, 0, 0] [[1, 2, 3]] [] 0 0)
    2147483658 (by decide) (by decide)).1 rfl

/-- C8: Load Program sets the program counter to `R[c]` in both branches;
with `R[b] ≠ 0` it replaces segment 0 by the value of segment `R[b]`
(a by-value copy, `clone()` in the source), leaving segment `R[b]` itself
unchanged; with `R[b] = 0` the memory is untouched. -/
theorem load_prog_semantics (vm : Vm) (w : Nat)
    (hb : vm.registers.getD (get RB w) 0 < vm.memory.length) :
    (vm.registers.getD (get RB w) 0 = 0 →
      load_prog vm w = some { vm with prog_count := vm.registers.getD (get RC w) 0 }) ∧
    (vm.registers.getD (get RB w) 0 ≠ 0 →
      load_prog vm w = some { vm with memory := vm.memory.set 0 (vm.memory.getD (vm.registers.getD (get RB w) 0) []), prog_count := vm.registers.getD (get RC w) 0 } ∧
      (vm.memory.set 0 (vm.memory.getD (vm.registers.getD (get RB w) 0) [])).getD (vm.registers.getD (get RB w) 0) [] = vm.memory.getD (vm.registers.getD (get RB w) 0) [] ∧
      (vm.memory.set 0 (vm.memory.getD (vm.registers.getD (get RB w) 0) [])).getD 0 [] = vm.memory.getD (vm.registers.getD (get RB w) 0) []) := by
  constructor
  · intro h0
    simp only [load_prog]
    rw [if_neg (not_not_intro h0)]
  · intro hne
    cases hsrc : vm.memory.get? (vm.registers.getD (get RB w) 0) with
    | none =>
      exfalso
      rw [List.get?_eq_getElem?] at hsrc
      exact absurd hb (Nat.not_lt.mpr (List.getElem?_eq_none_iff.mp hsrc))
    | some src =>
      have hD : vm.memory.getD (vm.registers.getD (get RB w) 0) [] = src := by
        rw [List.getD_eq_get?, hsrc]
        rfl
      refine ⟨?_, ?_, ?_⟩
      · simp only [load_prog]
        rw [if_pos hne, hsrc, hD]
      · rw [hD, List.getD_eq_get?, List.get?_set_ne _ _ (Ne.symm hne), hsrc]
        rfl
      · have h0 : 0 < vm.memory.length := Nat.lt_of_le_of_lt (Nat.zero_le _) hb
        rw [hD, List.getD_eq_get?, List.get?_set_eq_of_lt _ h0]
        rfl

/-- Witness for C8: duplicating segment 1 into segment 0 and branching to
offset 5. -/
theorem load_prog_semantics_witness :
    load_prog (Vm.mk [0, 1, 5, 0, 0, 0, 0, 0] [[9], [42, 43]] [] 1 0) 3221225482 =
      some (Vm.mk [0, 1, 5, 0, 0, 0, 0, 0] [[42, 43], [42, 43]] [] 1 5) :=
  ((load_prog_semantics (Vm.mk [0, 1, 5, 0, 0, 0, 0, 0] [[9], [42, 43]] [] 1 0)
    3221225482 (by decide)).2 (by decide)).1

/-- C10: Conditional Move, Add, Multiply, NAND and Load Value leave the
segment table, the free-list, the watermark and the (post-fetch) program
counter unchanged, and modify no register other than their target. -/
theorem pure_ops_frame (vm : Vm) (w : Nat) :
    FramePreserved vm (cond_move vm w) (get RA w) ∧
    FramePreserved vm (add vm w) (get RA w) ∧
    FramePreserved vm (mul vm w) (get RA w) ∧
    FramePreserved vm (nand vm w) (get RA w) ∧
    FramePreserved vm (load_val vm w) (get RL w) := by
  refine ⟨?_, ?_, ?_, ?_, ?_⟩
  · simp only [cond_move]
    split
    · exact ⟨rfl, rfl, rfl, rfl, fun i _ => rfl⟩
    · exact ⟨rfl, rfl, rfl, rfl, fun i hi => by
        simp [List.getD_eq_getElem?_getD, List.getElem?_set_ne (Ne.symm hi)]⟩
  · exact ⟨rfl, rfl, rfl, rfl, fun i hi => by
      simp [add, List.getD_eq_getElem?_getD, List.getElem?_set_ne (Ne.symm hi)]⟩
  · exact ⟨rfl, rfl, rfl, rfl, fun i hi => by
      simp [mul, List.getD_eq_getElem?_getD, List.getElem?_set_ne (Ne.symm hi)]⟩
  · exact ⟨rfl, rfl, rfl, rfl, fun i hi => by
      simp [nand, List.getD_eq_getElem?_getD, List.getElem?_set_ne (Ne.symm hi)]⟩
  · exact ⟨rfl, rfl, rfl, rfl, fun i hi => by
      simp [load_val, List.getD_eq_getElem?_getD, List.getElem?_set_ne (Ne.symm hi)]⟩

/-- Witness for C10: Add at a concrete state leaves the program counter
and a non-target register unchanged. -/
theorem pure_ops_frame_witness :
    (add (Vm.mk [10, 20, 30, 0, 0, 0, 0, 0] [[7]] [] 0 3) 805306368).prog_count = 3 ∧
    (add (Vm.mk [10, 20, 30, 0, 0, 0, 0, 0] [[7]] [] 0 3) 805306368).registers.getD 7 0 = 0 :=
  ⟨((pure_ops_frame (Vm.mk [10, 20, 30, 0, 0, 0, 0, 0] [[7]] [] 0 3) 805306368).2.1).2.2.2.1,
   ((pure_ops_frame (Vm.mk [10, 20, 30, 0, 0, 0, 0, 0] [[7]] [] 0 3) 805306368).2.1).2.2.2.2 7 (by decide)⟩

end RumV8
